import Mathlib

/-!
Verification of the release-classification and feed-assembly pipeline of
`src/generate-feed.ts` (repo-rss-feed).  The definitions below are a shallow
embedding of the TypeScript source: pure functions become Lean functions on
`List Char` / `String`, JavaScript runtime intrinsics (`Date` parsing,
`Date.prototype.toUTCString`, `Date.prototype.toISOString`, the `marked`
markdown renderer) are abstracted as a record of functions `JsEnv`, and the
network is abstracted as a per-target `FetchOutcome`.
-/

set_option maxRecDepth 8192

namespace RepoRss

/-! ### JavaScript character classes and small string utilities -/

/-- Characters that the JavaScript regex metacharacter `.` does NOT match
(line terminators, ECMA-262 `LineTerminator`). -/
def jsLineTerminator (c : Char) : Bool :=
  c = '\n' || c = '\r' || c = Char.ofNat 0x2028 || c = Char.ofNat 0x2029

/-- The ECMAScript `\s` / `String.prototype.trim` whitespace set
(WhiteSpace plus LineTerminator). -/
def jsWhitespace (c : Char) : Bool :=
  c = ' ' || c = '\t' || c = '\n' || c = '\r' ||
  c = Char.ofNat 0x0b || c = Char.ofNat 0x0c || c = Char.ofNat 0xa0 ||
  c = Char.ofNat 0x1680 || (0x2000 ≤ c.toNat && c.toNat ≤ 0x200a) ||
  c = Char.ofNat 0x2028 || c = Char.ofNat 0x2029 || c = Char.ofNat 0x202f ||
  c = Char.ofNat 0x205f || c = Char.ofNat 0x3000 || c = Char.ofNat 0xfeff

/-- JavaScript `String.prototype.trim` on a character list. -/
def jsTrim (cs : List Char) : List Char :=
  ((cs.dropWhile jsWhitespace).reverse.dropWhile jsWhitespace).reverse

/-- JavaScript string truthiness test: a string is falsy exactly when empty
(used for `if (!tag)`, `html ||  ...`, etc.). -/
def jsFalsyStr (s : String) : Bool :=
  s.data.isEmpty

/-! ### The semantic-version tag classifier (`isMajorOrMinorRelease`)

The source matches the tag against
`/^v?(?<major>\d+)\.(?<minor>\d+)(?:\.(?<patch>\d+))?(?<suffix>[-+].*)?$/`,
converts the captured digit strings with `Number`, requires
`Number.isInteger` of all three components and finally returns
`patchNumber === 0`. -/

/-- Split a character list into its maximal leading run of ASCII digits
(the greedy `\d+` capture) and the remainder. -/
def splitDigits : List Char → List Char × List Char
  | [] => ([], [])
  | c :: rest =>
    if c.isDigit then
      let (d, r) := splitDigits rest
      (c :: d, r)
    else ([], c :: rest)

/-- The optional `(?<suffix>[-+].*)?$` part of the semver regex: the rest of
the tag is empty, or starts with `-` or `+` followed by characters matched by
`.` (no line terminators), anchored at the end of the string. -/
def matchSuffixEnd (cs : List Char) : Bool :=
  match cs with
  | [] => true
  | c :: rest => (c = '-' || c = '+') && rest.all (fun d => !jsLineTerminator d)

/-- The optional leading `v?` of the semver regex. -/
def stripLeadV (cs : List Char) : List Char :=
  match cs with
  | [] => []
  | c :: rest => if c = 'v' then rest else c :: rest

/-- The anchored regex match of
`/^v?(\d+)\.(\d+)(?:\.(\d+))?([-+].*)?$/`, returning the `major`, `minor`
and optional `patch` captures.  The backtracking behaviour of the regex is
deterministic here: every digit run is forced to be maximal because each
capture is followed by a non-digit, when the optional patch group cannot
complete no other alternative can consume the `.` it started on (a suffix
must start with `-` or `+`), and an empty rest after the minor part is
accepted directly (`matchSuffixEnd [] = true`). -/
def semverGroups (cs : List Char) : Option (List Char × List Char × Option (List Char)) :=
  let cs1 := stripLeadV cs
  let major := (splitDigits cs1).1
  let r1 := (splitDigits cs1).2
  if major.isEmpty then none
  else
    match r1 with
    | [] => none
    | c1 :: r2 =>
      if c1 = '.' then
        let minor := (splitDigits r2).1
        let r3 := (splitDigits r2).2
        if minor.isEmpty then none
        else
          match r3 with
          | [] => some (major, minor, none)
          | c2 :: r4 =>
            if c2 = '.' then
              let patch := (splitDigits r4).1
              let r5 := (splitDigits r4).2
              if patch.isEmpty then none
              else if matchSuffixEnd r5 then some (major, minor, some patch) else none
            else if matchSuffixEnd (c2 :: r4) then some (major, minor, none) else none
      else none

/-- Numeric value of a captured digit string (what `Number` returns on it,
up to floating-point rounding; rounding never changes zeroness). -/
def natOfDigits (cs : List Char) : Nat :=
  cs.foldl (fun acc c => acc * 10 + (c.toNat - 48)) 0

/-- Models `Number.isInteger (Number digits)` for a non-empty digit string: the value
is an integer unless it overflows to `Infinity`, which happens exactly when
the exact value rounds up to `2^1024` (threshold `2^1024 - 2^970`). -/
def jsFiniteNat (n : Nat) : Bool :=
  n < 2 ^ 1024 - 2 ^ 970

/-- Classifier body on the raw tag characters (`tag` already known present
and non-empty is checked here via `cs.isEmpty`, mirroring `if (!tag)`). -/
def isMajorOrMinorTag (cs : List Char) : Bool :=
  if cs.isEmpty then false
  else
    match semverGroups cs with
    | none => false
    | some (major, minor, patch) =>
      let majorNumber := natOfDigits major
      let minorNumber := natOfDigits minor
      let patchNumber := match patch with
        | some p => natOfDigits p
        | none => 0
      if jsFiniteNat majorNumber && jsFiniteNat minorNumber && jsFiniteNat patchNumber then
        patchNumber == 0
      else false

/-- Source `isMajorOrMinorRelease(tag)`: `undefined` and the empty
string are rejected by `if (!tag)`, everything else by the anchored regex and
the `patchNumber === 0` policy. -/
def isMajorOrMinorRelease (tag : Option String) : Bool :=
  match tag with
  | none => false
  | some t => isMajorOrMinorTag t.data

/-! ### Characterization of the classifier -/

/-- Head of the remainder after a greedy `\d+` capture cannot be a digit. -/
def headNotDigit : List Char → Bool
  | [] => true
  | c :: _ => !c.isDigit

/-- Shape of a full tag decomposed into the regex groups: optional `v`,
major digits, `.`, minor digits, optional `.patch`, suffix. -/
def patchPart : Option (List Char) → List Char
  | some ps => '.' :: ps
  | none => []

/-- Render a decomposed tag back into its character sequence. -/
def renderTag (v : Bool) (major minor : List Char) (p : Option (List Char))
    (suffix : List Char) : List Char :=
  (if v then ['v'] else []) ++ major ++ '.' :: (minor ++ patchPart p ++ suffix)

/-- The patch number used by the classifier (`patch ? Number(patch) : 0`). -/
def patchNat : Option (List Char) → Nat
  | some ps => natOfDigits ps
  | none => 0

/-! ### JavaScript `String.prototype.replace(/pat/g, repl)` machinery -/

/-- Find the leftmost occurrence of `pat`: `some (pre, post)` means the
scanned list is `pre ++ pat ++ post` and no occurrence starts inside `pre`. -/
def findSplit (pat : List Char) : List Char → Option (List Char × List Char)
  | [] => none
  | c :: rest =>
    if pat.isPrefixOf (c :: rest) then some ([], (c :: rest).drop pat.length)
    else
      match findSplit pat rest with
      | some (pre, post) => some (c :: pre, post)
      | none => none

/-- Fuelled global replacement: each step rewrites the leftmost occurrence
and continues after the replacement, exactly like a `/g` regex replace with a
fixed non-empty pattern. -/
def replaceAllF (pat repl : List Char) : Nat → List Char → List Char
  | 0, cs => cs
  | fuel + 1, cs =>
    match findSplit pat cs with
    | none => cs
    | some (pre, post) => pre ++ repl ++ replaceAllF pat repl fuel post

/-- Models `value.replace(/pat/g, repl)` for a fixed non-empty pattern (the length
of the input is always enough fuel, since every step consumes at least one
character). -/
def replaceAll (pat repl cs : List Char) : List Char :=
  replaceAllF pat repl cs.length cs

/-- Case-insensitive character comparison used by `/.../i` regexes (ASCII
simple case folding suffices for the patterns in the source). -/
def lowerEq (a b : Char) : Bool :=
  a.toLower == b.toLower

/-- Case-insensitive prefix test. -/
def ciIsPrefix : List Char → List Char → Bool
  | [], _ => true
  | _ :: _, [] => false
  | p :: ps, c :: cs => lowerEq p c && ciIsPrefix ps cs

/-- Case-insensitive leftmost-occurrence search. -/
def ciFindSplit (pat : List Char) : List Char → Option (List Char × List Char)
  | [] => none
  | c :: rest =>
    if ciIsPrefix pat (c :: rest) then some ([], (c :: rest).drop pat.length)
    else
      match ciFindSplit pat rest with
      | some (pre, post) => some (c :: pre, post)
      | none => none

/-- Case-insensitive fuelled global replacement (`/pat/gi`). -/
def ciReplaceAllF (pat repl : List Char) : Nat → List Char → List Char
  | 0, cs => cs
  | fuel + 1, cs =>
    match ciFindSplit pat cs with
    | none => cs
    | some (pre, post) => pre ++ repl ++ ciReplaceAllF pat repl fuel post

/-- Models `value.replace(/pat/gi, repl)`. -/
def ciReplaceAll (pat repl cs : List Char) : List Char :=
  ciReplaceAllF pat repl cs.length cs

/-! ### CDATA wrapping (`wrapInCdata`) -/

/-- The CDATA opening marker `<![CDATA[`. -/
def cdOpen : List Char := ['<', '!', '[', 'C', 'D', 'A', 'T', 'A', '[']

/-- The CDATA terminator `]]>`. -/
def cdClose : List Char := [']', ']', '>']

/-- The replacement `]]]]><![CDATA[>` that the source substitutes for every
embedded `]]>`: it closes the current section after `]]` and reopens a new
one starting with `>`. -/
def cdReplacement : List Char := ']' :: ']' :: cdClose ++ cdOpen ++ ['>']

/-- Source `wrapInCdata(tagName, value)`:
`` `<${tagName}><![CDATA[${safeValue}]]></${tagName}>` `` with
`safeValue = value.replace(/\]\]>/g, ']]]]><![CDATA[>')`. -/
def wrapInCdata (tagName : String) (value : String) : String :=
  let safeValue := String.mk (replaceAll cdClose cdReplacement value.data)
  "<" ++ tagName ++ "><![CDATA[" ++ safeValue ++ "]]></" ++ tagName ++ ">"

/-- Fuelled parser for the element content produced by `wrapInCdata`: a
(possibly empty) sequence of CDATA sections, each `<![CDATA[` followed by the
text up to the first `]]>`.  Returns the concatenated recovered text when the
content is a well-formed sequence of sections and nothing else. -/
def parseCdataF : Nat → List Char → Option (List Char)
  | _, [] => some []
  | 0, _ :: _ => none
  | fuel + 1, cs =>
    if cdOpen.isPrefixOf cs then
      match findSplit cdClose (cs.drop cdOpen.length) with
      | some (txt, post) => (parseCdataF fuel post).map (fun rest => txt ++ rest)
      | none => none
    else none

/-- XML-level reading of a sequence of CDATA sections. -/
def parseCdataSections (cs : List Char) : Option (List Char) :=
  parseCdataF cs.length cs

/-! ### XML escaping and summaries -/

/-- Source `escapeXml`: five sequential global replaces. -/
def escapeXml (value : String) : String :=
  let s1 := replaceAll ['&'] ("&amp;".data) value.data
  let s2 := replaceAll ['<'] ("&lt;".data) s1
  let s3 := replaceAll ['>'] ("&gt;".data) s2
  let s4 := replaceAll [Char.ofNat 34] ("&quot;".data) s3
  let s5 := replaceAll [Char.ofNat 39] ("&apos;".data) s4
  String.mk s5

/-- One step of `/<script[\s\S]*?<\/script>/gi` (resp. style): find the
case-insensitive opener, then the earliest closer after it (the lazy
quantifier), and replace the whole block with one space; when an opener has
no later closer there is no further match at all. -/
def removeBlocksF (openPat closePat : List Char) : Nat → List Char → List Char
  | 0, cs => cs
  | fuel + 1, cs =>
    match ciFindSplit openPat cs with
    | none => cs
    | some (pre, rest1) =>
      match ciFindSplit closePat rest1 with
      | none => cs
      | some (_, rest2) => pre ++ ' ' :: removeBlocksF openPat closePat fuel rest2

/-- Models `value.replace(/<openPat[\s\S]*?closePat/gi, ' ')`. -/
def removeBlocks (openPat closePat cs : List Char) : List Char :=
  removeBlocksF openPat closePat cs.length cs

/-- Models `value.replace(/<[^>]+>/g, ' ')`: a `<` followed by at least one
non-`>` character up to the first `>` becomes a single space; a bare `<>` or
an unterminated `<...` is left alone. -/
def removeTagsF : Nat → List Char → List Char
  | 0, cs => cs
  | _ + 1, [] => []
  | fuel + 1, c :: rest =>
    if c = '<' then
      match findSplit ['>'] rest with
      | some (before, post) =>
        if before.isEmpty then c :: removeTagsF fuel rest
        else ' ' :: removeTagsF fuel post
      | none => c :: removeTagsF fuel rest
    else c :: removeTagsF fuel rest

/-- Models `value.replace(/<[^>]+>/g, ' ')`. -/
def removeTags (cs : List Char) : List Char :=
  removeTagsF cs.length cs

/-- Collapse consecutive spaces after whitespace normalisation. -/
def squeezeSpaces : List Char → List Char
  | [] => []
  | [c] => [c]
  | c :: d :: rest =>
    if c = ' ' && d = ' ' then squeezeSpaces (d :: rest)
    else c :: squeezeSpaces (d :: rest)

/-- Models `value.replace(/\s+/g, ' ')`: every maximal whitespace run becomes one
space. -/
def collapseWs (cs : List Char) : List Char :=
  squeezeSpaces (cs.map (fun c => if jsWhitespace c then ' ' else c))

/-- Source `stripHtmlTags`: drop script/style blocks, drop tags,
decode `&nbsp;`, collapse whitespace, trim. -/
def stripHtmlTags (value : String) : String :=
  let s1 := removeBlocks ("<script".data) ("</script>".data) value.data
  let s2 := removeBlocks ("<style".data) ("</style>".data) s1
  let s3 := removeTags s2
  let s4 := ciReplaceAll ("&nbsp;".data) [' '] s3
  String.mk (jsTrim (collapseWs s4))

/-- Source `buildSummary`: plain-text summary capped at 300
characters with a fixed fallback for empty bodies. -/
def buildSummary (html : String) : String :=
  if jsFalsyStr html then "No release notes provided."
  else
    let text := stripHtmlTags html
    if jsFalsyStr text then "No release notes provided."
    else if text.data.length ≤ 300 then text
    else String.mk (jsTrim (text.data.take 297)) ++ "..."

/-- Source `buildFeedUrl`: append `feed.xml` with exactly one
path separator. -/
def buildFeedUrl (siteLink : String) : String :=
  let normalized := if siteLink.data.getLast? = some '/' then siteLink else siteLink ++ "/"
  normalized ++ "feed.xml"

/-- JavaScript `str.split('/')` on characters: splitting never yields an
empty list (`"".split('/')` is `[""]`). -/
def splitOnChar (sep : Char) : List Char → List (List Char)
  | [] => [[]]
  | c :: rest =>
    match splitOnChar sep rest with
    | [] => [[c]]
    | g :: gs => if c = sep then [] :: g :: gs else (c :: g) :: gs

/-- Models `const [owner, repo] = slug.split('/')` followed by the truthiness
checks: the destructuring reads the first two groups, a missing group is
`undefined` which is falsy just like the empty string. -/
def slugParts (slug : String) : String × String :=
  let parts := splitOnChar '/' slug.data
  (String.mk (parts.getD 0 []), String.mk (parts.getD 1 []))

/-- JavaScript `array.join('\\n')` on strings. -/
def joinLines : List String → String
  | [] => ""
  | [a] => a
  | a :: rest => a ++ "\n" ++ joinLines rest

/-- JavaScript `array.join('')` on strings. -/
def joinAll : List String → String
  | [] => ""
  | a :: rest => a ++ joinAll rest

/-- Both halves of the `owner`/`repo` destructuring are truthy. -/
def validSlug (slug : String) : Bool :=
  !jsFalsyStr (slugParts slug).1 && !jsFalsyStr (slugParts slug).2

/-! ### JavaScript runtime intrinsics and the data model -/

/-- The JavaScript runtime functions the script uses but does not define:
`Date` parsing (`none` models an Invalid Date / `NaN` time value),
`Date.prototype.toUTCString` (including its `"Invalid Date"` output),
`Date.prototype.toISOString`, and `marked.parse`. -/
structure JsEnv where
  parseDate : String → Option Int
  toUTCString : Option Int → String
  toISOString : Int → String
  markedParse : String → String

/-- Source `formatRssDate(isoDate?)`: `isoDate` truthy means parse it, otherwise
(absent or empty string) use the current time `now`. -/
def formatRssDate (env : JsEnv) (now : Int) (isoDate : Option String) : String :=
  match isoDate with
  | some s =>
    if jsFalsyStr s then env.toUTCString (some now) else env.toUTCString (env.parseDate s)
  | none => env.toUTCString (some now)

/-- Source `renderMarkdownToHtml`: trim, empty yields `""`,
otherwise `marked.parse` and trim. -/
def renderMarkdownToHtml (env : JsEnv) (markdown : String) : String :=
  let trimmed := String.mk (jsTrim markdown.data)
  if jsFalsyStr trimmed then ""
  else String.mk (jsTrim (env.markedParse trimmed).data)

/-- A raw release record as received from the GitHub API (the fields the
script reads; optional fields of the TypeScript interface are `Option`). -/
structure GitHubRelease where
  id : Int
  html_url : String
  tag_name : Option String
  name : Option String
  body : Option String
  draft : Bool
  prerelease : Bool
  published_at : Option String
  created_at : Option String
deriving DecidableEq

/-- A normalized feed item (the `FeedItem` interface of the source). -/
structure FeedItem where
  repoSlug : String
  htmlUrl : String
  tagName : String
  publishedAt : Option String
  descriptionHtml : String
  id : String
  name : String
deriving DecidableEq

/-- An object entry of `repos.json`.  The JSON may carry an
`includePatchReleases` field (the README documents it); whether the script
reads it is exactly what is under scrutiny. -/
structure RepoConfigObj where
  slug : Option String
  maxReleases : Option Nat
  includePatchReleases : Option Bool
deriving DecidableEq

/-- An entry of the `repositories` array: a bare slug string or an object. -/
inductive ConfigEntry where
  | str (s : String)
  | obj (o : RepoConfigObj)
deriving DecidableEq

/-- The `NormalizedRepoConfig` interface of the source: note it has no
patch-release field at all. -/
structure NormalizedRepoConfig where
  slug : String
  maxReleases : Nat
deriving DecidableEq

/-- Constant `DEFAULT_MAX_RELEASES_PER_REPO` from the source. -/
def DEFAULT_MAX_RELEASES_PER_REPO : Nat := 10

/-- Source `parseConfigEntry`: a string entry gets the default cap;
an object entry must have a string `slug` and contributes only `slug` and
`maxReleases` — any `includePatchReleases` field of the object is discarded. -/
def parseConfigEntry : ConfigEntry → Except String NormalizedRepoConfig
  | .str s => .ok { slug := s, maxReleases := DEFAULT_MAX_RELEASES_PER_REPO }
  | .obj o =>
    match o.slug with
    | some s => .ok { slug := s, maxReleases := o.maxReleases.getD DEFAULT_MAX_RELEASES_PER_REPO }
    | none => .error "Invalid repository entry"

/-- The `.map` body of `fetchReleasesForRepo`: build one `FeedItem` from a
raw release (`${...}` interpolation of an `undefined` tag renders as the
string `"undefined"`). -/
def normalizeRelease (env : JsEnv) (slug : String) (release : GitHubRelease) : FeedItem :=
  { repoSlug := slug
    htmlUrl := release.html_url
    tagName := release.tag_name.getD "unknown"
    publishedAt :=
      match release.published_at with
      | some s => some s
      | none => release.created_at
    descriptionHtml := renderMarkdownToHtml env (release.body.getD "")
    id := release.html_url
    name := release.name.getD (slug ++ " " ++ release.tag_name.getD "undefined") }

/-- The pure pipeline tail of `fetchReleasesForRepo`: drop drafts and
prereleases, keep classifier-approved tags, truncate to `maxReleases` in API
response order, and normalize. -/
def processReleases (env : JsEnv) (slug : String) (maxReleases : Nat)
    (releases : List GitHubRelease) : List FeedItem :=
  (((releases.filter (fun r => !r.draft && !r.prerelease)).filter
        (fun r => isMajorOrMinorRelease r.tag_name)).take maxReleases).map
    (normalizeRelease env slug)

/-- The filters of `fetchReleasesForRepo` without the truncation, used to
speak about "qualifying releases". -/
def qualifyingReleases (releases : List GitHubRelease) : List GitHubRelease :=
  (releases.filter (fun r => !r.draft && !r.prerelease)).filter
    (fun r => isMajorOrMinorRelease r.tag_name)

/-- Outcome of the single network call of `fetchReleasesForRepo`. -/
inductive FetchOutcome where
  | ok (releases : List GitHubRelease)
  | httpError (status : Nat) (statusText : String)
  | notAList
deriving DecidableEq

/-- Source `fetchReleasesForRepo` with the network call abstracted: the slug-shape
check throws first, then a non-ok response or a non-array body throws, and a
successful response is filtered, truncated and normalized. -/
def fetchReleasesForRepo (env : JsEnv) (cfg : NormalizedRepoConfig)
    (outcome : FetchOutcome) : Except String (List FeedItem) :=
  let owner := (slugParts cfg.slug).1
  let repo := (slugParts cfg.slug).2
  if jsFalsyStr owner || jsFalsyStr repo then
    .error ("Repository slug \"" ++ cfg.slug ++ "\" must be in \"owner/name\" format.")
  else
    match outcome with
    | .httpError status statusText =>
      .error ("GitHub API request failed for " ++ cfg.slug ++ ": " ++
        toString status ++ " " ++ statusText)
    | .notAList => .error ("Unexpected response format for " ++ cfg.slug)
    | .ok releases => .ok (processReleases env cfg.slug cfg.maxReleases releases)

/-- The per-repository loop of `main`: successes extend the accumulated
item list, failures append a `- slug: message` warning line; no failure
stops the iteration. -/
def processTargets (env : JsEnv)
    (targets : List (NormalizedRepoConfig × FetchOutcome)) :
    List FeedItem × List String :=
  targets.foldl
    (fun acc t =>
      match fetchReleasesForRepo env t.1 t.2 with
      | .ok releases => (acc.1 ++ releases, acc.2)
      | .error message => (acc.1, acc.2 ++ ["- " ++ t.1.slug ++ ": " ++ message]))
    ([], [])

/-! ### Sorting (`Array.prototype.sort`, stable per ES2019) -/

/-- The time value of `new Date(item.publishedAt ?? 0)`: a missing timestamp
is the number `0` (the epoch); a present string is parsed by the runtime
(`none` = `NaN`). -/
def jsDateValue (env : JsEnv) (publishedAt : Option String) : Option Int :=
  match publishedAt with
  | none => some 0
  | some s => env.parseDate s

/-- The comparator `(a, b) => new Date(b..).getTime() - new Date(a..).getTime()`;
a `NaN` on either side makes the comparison count as equal (ES2023
`SortCompare` turns a `NaN` comparator result into `+0`). -/
def itemComparator (env : JsEnv) (a b : FeedItem) : Int :=
  match jsDateValue env b.publishedAt, jsDateValue env a.publishedAt with
  | some kb, some ka => kb - ka
  | _, _ => 0

/-- Insert an element after every earlier element it does not strictly
precede: together with the left-to-right fold below this is the stable sort
required of `Array.prototype.sort`. -/
def sortInsert (cmp : FeedItem → FeedItem → Int) (x : FeedItem) :
    List FeedItem → List FeedItem
  | [] => [x]
  | y :: ys => if cmp x y < 0 then x :: y :: ys else y :: sortInsert cmp x ys

/-- Models `items.sort(cmp)` as the stable sort by the comparator. -/
def jsSortItems (cmp : FeedItem → FeedItem → Int) (items : List FeedItem) :
    List FeedItem :=
  items.foldl (fun acc x => sortInsert cmp x acc) []

/-! ### Feed assembly (`buildRssFeed`) and the main loop -/

/-- Constant `SITE_TITLE` from the source. -/
def SITE_TITLE : String := "Major & Minor Releases Feed"

/-- Constant `SITE_DESCRIPTION` from the source. -/
def SITE_DESCRIPTION : String :=
  "Aggregated RSS feed with the latest major/minor releases from selected GitHub repositories."

/-- Constant `SITE_LINK` from the source. -/
def SITE_LINK : String := "https://example.com/rss"

/-- Constant `SITE_LANGUAGE` from the source. -/
def SITE_LANGUAGE : String := "en"

/-- Constant `SITE_TTL` from the source. -/
def SITE_TTL : Nat := 180

/-- Constant `SITE_GENERATOR` from the source. -/
def SITE_GENERATOR : String := "repo-rss generator"

/-- The `<item>` block for one feed item (the `.map` body inside
`buildRssFeed`), with `filter(Boolean)` dropping the category lines of an
empty owner or repo part. -/
def renderFeedItem (env : JsEnv) (now : Int) (item : FeedItem) : String :=
  let title := item.repoSlug ++ " " ++ item.tagName
  let summary := buildSummary item.descriptionHtml
  let descriptionElement := "<description>" ++ escapeXml summary ++ "</description>"
  let contentHtml :=
    if jsFalsyStr item.descriptionHtml then "<p>No release notes provided.</p>"
    else item.descriptionHtml
  let contentElement := wrapInCdata "content:encoded" contentHtml
  let owner := (slugParts item.repoSlug).1
  let repo := (slugParts item.repoSlug).2
  let repoUrl := "https://github.com/" ++ item.repoSlug
  joinLines (List.filterMap id [
    some "    <item>",
    some ("      <title>" ++ escapeXml title ++ "</title>"),
    some ("      <link>" ++ escapeXml item.htmlUrl ++ "</link>"),
    some ("      <guid" ++
      (if item.id = item.htmlUrl then " isPermaLink=\"true\"" else " isPermaLink=\"false\"") ++
      ">" ++ escapeXml item.id ++ "</guid>"),
    some ("      <pubDate>" ++ escapeXml (formatRssDate env now item.publishedAt) ++ "</pubDate>"),
    some ("      " ++ descriptionElement),
    some ("      " ++ contentElement),
    (if jsFalsyStr owner then none
     else some ("      <category>" ++ escapeXml owner ++ "</category>")),
    (if jsFalsyStr repo then none
     else some ("      <category>" ++ escapeXml repo ++ "</category>")),
    some ("      <source url=\"" ++ escapeXml repoUrl ++ "\">" ++ escapeXml item.repoSlug ++ "</source>"),
    some "    </item>"])

/-- The text of the `<lastBuildDate>` field:
`escapeXml(formatRssDate(new Date().toISOString()))`. -/
def lastBuildStamp (env : JsEnv) (now : Int) : String :=
  escapeXml (formatRssDate env now (some (env.toISOString now)))

/-- Source `buildRssFeed`: stable-sort the merged items by
descending publication time, render each item, and join the channel lines. -/
def buildRssFeed (env : JsEnv) (items : List FeedItem) (now : Int) : String :=
  let feedUrl := buildFeedUrl SITE_LINK
  let feedItems :=
    joinAll ((jsSortItems (itemComparator env) items).map (renderFeedItem env now))
  joinLines [
    "<?xml version=\"1.0\" encoding=\"UTF-8\"?>",
    "<rss version=\"2.0\"",
    "  xmlns:atom=\"http://www.w3.org/2005/Atom\"",
    "  xmlns:content=\"http://purl.org/rss/1.0/modules/content/\">",
    "  <channel>",
    "    <title>" ++ escapeXml SITE_TITLE ++ "</title>",
    "    <link>" ++ escapeXml SITE_LINK ++ "</link>",
    "    <atom:link href=\"" ++ escapeXml feedUrl ++ "\" rel=\"self\" type=\"application/rss+xml\" />",
    "    <description>" ++ escapeXml SITE_DESCRIPTION ++ "</description>",
    "    <language>" ++ escapeXml SITE_LANGUAGE ++ "</language>",
    "    <docs>https://www.rssboard.org/rss-specification</docs>",
    "    <generator>" ++ escapeXml SITE_GENERATOR ++ "</generator>",
    "    <lastBuildDate>" ++ lastBuildStamp env now ++ "</lastBuildDate>",
    "    <ttl>" ++ toString SITE_TTL ++ "</ttl>",
    feedItems,
    "  </channel>",
    "</rss>",
    ""]

/-- Models `rawEntries.map(parseConfigEntry)` with JavaScript exception semantics:
the first entry that throws aborts the whole map. -/
def parseEntries :
    List (ConfigEntry × FetchOutcome) →
      Except String (List (NormalizedRepoConfig × FetchOutcome))
  | [] => .ok []
  | e :: rest =>
    match parseConfigEntry e.1 with
    | .error msg => .error msg
    | .ok cfg =>
      match parseEntries rest with
      | .error msg => .error msg
      | .ok cfgs => .ok ((cfg, e.2) :: cfgs)

/-- Source `main` with I/O abstracted: parse the configured entries (a config error
aborts), run the per-repository loop, build the feed.  Per-target fetch
failures are caught inside the loop and can never surface here. -/
def mainRun (env : JsEnv) (entries : List (ConfigEntry × FetchOutcome)) (now : Int) :
    Except String (String × List String) :=
  match parseEntries entries with
  | .error msg => .error msg
  | .ok targets =>
    let (results, errors) := processTargets env targets
    .ok (buildRssFeed env results now, errors)

/-- The process exit code: `0` unless `main()` rejects
(`process.exitCode = 1` in the final `.catch`). -/
def mainExitCode (r : Except String (String × List String)) : Nat :=
  match r with
  | .ok _ => 0
  | .error _ => 1

/-- The sort key actually compared: a missing key (`NaN`) reads as `0` only
through `getD`; all theorems about order assume keys are present. -/
def itemKey (env : JsEnv) (i : FeedItem) : Int :=
  (jsDateValue env i.publishedAt).getD 0

/-- Everything `buildRssFeed` emits before the build-timestamp text. -/
def feedChannelLead : String :=
  joinLines [
    "<?xml version=\"1.0\" encoding=\"UTF-8\"?>",
    "<rss version=\"2.0\"",
    "  xmlns:atom=\"http://www.w3.org/2005/Atom\"",
    "  xmlns:content=\"http://purl.org/rss/1.0/modules/content/\">",
    "  <channel>",
    "    <title>" ++ escapeXml SITE_TITLE ++ "</title>",
    "    <link>" ++ escapeXml SITE_LINK ++ "</link>",
    "    <atom:link href=\"" ++ escapeXml (buildFeedUrl SITE_LINK) ++ "\" rel=\"self\" type=\"application/rss+xml\" />",
    "    <description>" ++ escapeXml SITE_DESCRIPTION ++ "</description>",
    "    <language>" ++ escapeXml SITE_LANGUAGE ++ "</language>",
    "    <docs>https://www.rssboard.org/rss-specification</docs>",
    "    <generator>" ++ escapeXml SITE_GENERATOR ++ "</generator>"] ++
  "\n" ++ "    <lastBuildDate>"

/-- Everything `buildRssFeed` emits after the build-timestamp text (the item
blocks rendered at a pinned reference time; for timestamped items the
rendering does not depend on the time at all). -/
def feedTail (env : JsEnv) (items : List FeedItem) : String :=
  "</lastBuildDate>" ++ "\n" ++
  joinLines [
    "    <ttl>" ++ toString SITE_TTL ++ "</ttl>",
    joinAll ((jsSortItems (itemComparator env) items).map (renderFeedItem env 0)),
    "  </channel>",
    "</rss>",
    ""]

/-! ### Concrete inputs used by the witnesses -/

/-- A tiny concrete JavaScript runtime for witnesses: the time value of a
date string is its length, formatting distinguishes only zero. -/
def envZ : JsEnv where
  parseDate s := some (s.length : Int)
  toUTCString o :=
    match o with
    | some n => if n = 0 then "A" else "B"
    | none => "X"
  toISOString _ := "T"
  markedParse s := s

/-- A concrete qualifying release for witnesses. -/
def relZ (tag : String) (ts : String) : GitHubRelease where
  id := 1
  html_url := "https://github.com/o/r/releases/tag/" ++ tag
  tag_name := some tag
  name := none
  body := none
  draft := false
  prerelease := false
  published_at := some ts
  created_at := none

/-- Five qualifying releases (all `.0`-patch tags). -/
def rsZ5 : List GitHubRelease :=
  [relZ "1.0" "ta", relZ "2.0" "tb", relZ "3.0" "tc", relZ "4.0" "td", relZ "5.0" "te"]

/-- Concrete feed items with present, distinct, positive sort keys. -/
def itemZ1 : FeedItem where
  repoSlug := "o/r"
  htmlUrl := "u1"
  tagName := "1.0"
  publishedAt := some "aa"
  descriptionHtml := ""
  id := "u1"
  name := "n1"

/-- Second concrete feed item (larger key). -/
def itemZ2 : FeedItem where
  repoSlug := "o/r"
  htmlUrl := "u2"
  tagName := "2.0"
  publishedAt := some "aaaa"
  descriptionHtml := ""
  id := "u2"
  name := "n2"

/-- A feed item with no timestamp at all. -/
def itemNoTs : FeedItem where
  repoSlug := "o/r"
  htmlUrl := "u3"
  tagName := "3.0"
  publishedAt := none
  descriptionHtml := ""
  id := "u3"
  name := "n3"

theorem splitDigits_spec (cs : List Char) :
    (splitDigits cs).1 ++ (splitDigits cs).2 = cs ∧
      (splitDigits cs).1.all Char.isDigit = true ∧
      headNotDigit (splitDigits cs).2 = true := by
  induction cs with
  | nil => simp [splitDigits, headNotDigit]
  | cons c rest ih =>
    by_cases hc : c.isDigit
    · simp only [splitDigits, hc, if_pos]
      refine ⟨by simp [ih.1], by simp [hc, ih.2.1], ih.2.2⟩
    · simp only [splitDigits, hc, if_neg, Bool.false_eq_true, not_false_iff]
      refine ⟨rfl, by simp, by simp [headNotDigit, hc]⟩

theorem splitDigits_append (d r : List Char) (hd : d.all Char.isDigit = true)
    (hr : headNotDigit r = true) : splitDigits (d ++ r) = (d, r) := by
  induction d with
  | nil =>
    cases r with
    | nil => simp [splitDigits]
    | cons c rest =>
      simp only [headNotDigit, Bool.not_eq_true'] at hr
      simp [splitDigits, hr]
  | cons c d' ih =>
    simp only [List.all_cons, Bool.and_eq_true] at hd
    simp [splitDigits, hd.1, ih hd.2]

theorem matchSuffixEnd_headNotDigit {s : List Char} (h : matchSuffixEnd s = true) :
    headNotDigit s = true := by
  cases s with
  | nil => rfl
  | cons c rest =>
    simp only [matchSuffixEnd, Bool.and_eq_true, Bool.or_eq_true, decide_eq_true_eq] at h
    rcases h.1 with rfl | rfl <;> rfl

theorem digit_ne_dot {c : Char} (h : c.isDigit = true) : ¬(c = '.') := by
  intro he; subst he; exact absurd h (by decide)

theorem digit_ne_v {c : Char} (h : c.isDigit = true) : ¬(c = 'v') := by
  intro he; subst he; exact absurd h (by decide)

/-- Evaluating the regex on a rendered tag recovers exactly its groups. -/
theorem semverGroups_renderTag (v : Bool) (major minor : List Char)
    (p : Option (List Char)) (suffix : List Char)
    (hM : major ≠ []) (hMd : major.all Char.isDigit = true)
    (hm : minor ≠ []) (hmd : minor.all Char.isDigit = true)
    (hp : ∀ ps, p = some ps → ps ≠ [] ∧ ps.all Char.isDigit = true)
    (hs : matchSuffixEnd suffix = true) :
    semverGroups (renderTag v major minor p suffix) = some (major, minor, p) := by
  have hstrip : stripLeadV (renderTag v major minor p suffix)
      = major ++ '.' :: (minor ++ patchPart p ++ suffix) := by
    cases v with
    | true => simp [renderTag, stripLeadV]
    | false =>
      obtain ⟨c, M', rfl⟩ : ∃ c M', major = c :: M' := by
        cases major with
        | nil => exact absurd rfl hM
        | cons c M' => exact ⟨c, M', rfl⟩
      have hc : c.isDigit = true := by
        simp only [List.all_cons, Bool.and_eq_true] at hMd; exact hMd.1
      simp [renderTag, stripLeadV, digit_ne_v hc]
  have hsplit1 : splitDigits (major ++ '.' :: (minor ++ patchPart p ++ suffix))
      = (major, '.' :: (minor ++ patchPart p ++ suffix)) :=
    splitDigits_append _ _ hMd (by simp [headNotDigit])
  have hrest : headNotDigit (patchPart p ++ suffix) = true := by
    cases p with
    | some ps => simp [patchPart, headNotDigit]
    | none =>
      simpa [patchPart] using matchSuffixEnd_headNotDigit hs
  have hsplit2 : splitDigits (minor ++ (patchPart p ++ suffix))
      = (minor, patchPart p ++ suffix) :=
    splitDigits_append _ _ hmd hrest
  cases p with
  | none =>
    cases suffix with
    | nil =>
      simp only [patchPart, List.append_assoc, List.cons_append, List.nil_append,
        List.append_nil] at hstrip hsplit1 hsplit2
      simp [semverGroups, hstrip, hsplit1, hsplit2, hM, hm]
    | cons c rest =>
      have hnd : ¬(c = '.') := by
        simp only [matchSuffixEnd, Bool.and_eq_true, Bool.or_eq_true,
          decide_eq_true_eq] at hs
        rcases hs.1 with rfl | rfl <;> decide
      simp only [patchPart, List.append_assoc, List.cons_append, List.nil_append,
        List.append_nil] at hstrip hsplit1 hsplit2
      simp [semverGroups, hstrip, hsplit1, hsplit2, hM, hm, hnd, hs]
  | some ps =>
    obtain ⟨hps, hpsd⟩ := hp ps rfl
    have hsplit3 : splitDigits (ps ++ suffix) = (ps, suffix) :=
      splitDigits_append _ _ hpsd (matchSuffixEnd_headNotDigit hs)
    simp only [patchPart, List.append_assoc, List.cons_append, List.nil_append,
      List.append_nil] at hstrip hsplit1 hsplit2
    simp [semverGroups, hstrip, hsplit1, hsplit2, hM, hm, hsplit3, hps, hs,
      List.append_assoc]

/-- Any successful regex match decomposes the tag completely (the match is
anchored: nothing of the tag lies outside the recovered groups). -/
theorem semverGroups_eq_some {cs : List Char} {major minor : List Char}
    {p : Option (List Char)}
    (h : semverGroups cs = some (major, minor, p)) :
    ∃ v suffix, cs = renderTag v major minor p suffix ∧
      major ≠ [] ∧ major.all Char.isDigit = true ∧
      minor ≠ [] ∧ minor.all Char.isDigit = true ∧
      (∀ ps, p = some ps → ps ≠ [] ∧ ps.all Char.isDigit = true) ∧
      matchSuffixEnd suffix = true := by
  have hv : ∃ v : Bool, cs = (if v then ['v'] else []) ++ stripLeadV cs := by
    cases cs with
    | nil => exact ⟨false, rfl⟩
    | cons c rest =>
      by_cases hc : c = 'v'
      · subst hc; exact ⟨true, by simp [stripLeadV]⟩
      · exact ⟨false, by simp [stripLeadV, hc]⟩
  obtain ⟨v, hcs⟩ := hv
  obtain ⟨M1, r1, hsd1⟩ : ∃ a b, splitDigits (stripLeadV cs) = (a, b) := ⟨_, _, rfl⟩
  obtain ⟨hsp1, hdig1, hnd1⟩ := splitDigits_spec (stripLeadV cs)
  rw [hsd1] at hsp1 hdig1 hnd1
  simp only [semverGroups, hsd1] at h
  split at h
  · exact absurd h (by simp)
  rename_i hMne
  split at h
  · exact absurd h (by simp)
  rename_i c1 r2
  split at h
  case isFalse => exact absurd h (by simp)
  rename_i hc1
  subst hc1
  obtain ⟨m1, r3, hsd2⟩ : ∃ a b, splitDigits r2 = (a, b) := ⟨_, _, rfl⟩
  obtain ⟨hsp2, hdig2, hnd2⟩ := splitDigits_spec r2
  rw [hsd2] at hsp2 hdig2 hnd2
  simp only [hsd2] at h
  split at h
  · exact absurd h (by simp)
  rename_i hmne
  split at h
  · simp only [Option.some.injEq, Prod.mk.injEq] at h
    obtain ⟨h1, h2, h3⟩ := h
    subst h1; subst h2; subst h3
    refine ⟨v, [], ?_, ?_, hdig1, ?_, hdig2, by simp, rfl⟩
    · rw [hcs, ← hsp1, ← hsp2]
      simp [renderTag, patchPart]
    · simpa using hMne
    · simpa using hmne
  · rename_i c2 r4
    split at h
    · rename_i hc2
      subst hc2
      obtain ⟨p1, r5, hsd3⟩ : ∃ a b, splitDigits r4 = (a, b) := ⟨_, _, rfl⟩
      obtain ⟨hsp3, hdig3, hnd3⟩ := splitDigits_spec r4
      rw [hsd3] at hsp3 hdig3 hnd3
      simp only [hsd3] at h
      split at h
      · exact absurd h (by simp)
      rename_i hpne
      split at h
      case isFalse => exact absurd h (by simp)
      rename_i hsuf
      simp only [Option.some.injEq, Prod.mk.injEq] at h
      obtain ⟨h1, h2, h3⟩ := h
      subst h1; subst h2; subst h3
      refine ⟨v, r5, ?_, ?_, hdig1, ?_, hdig2, ?_, hsuf⟩
      · rw [hcs, ← hsp1, ← hsp2, ← hsp3]
        simp [renderTag, patchPart]
      · simpa using hMne
      · simpa using hmne
      · intro ps hps
        injection hps with hps
        subst hps
        exact ⟨by simpa using hpne, hdig3⟩
    · rename_i hc2
      split at h
      case isFalse => exact absurd h (by simp)
      rename_i hsuf
      simp only [Option.some.injEq, Prod.mk.injEq] at h
      obtain ⟨h1, h2, h3⟩ := h
      subst h1; subst h2; subst h3
      refine ⟨v, c2 :: r4, ?_, ?_, hdig1, ?_, hdig2, by simp, hsuf⟩
      · rw [hcs, ← hsp1, ← hsp2]
        simp [renderTag, patchPart]
      · simpa using hMne
      · simpa using hmne

/-- Rendered tags are never empty (they contain the `.` between major and
minor). -/
theorem renderTag_ne_nil (v : Bool) (major minor : List Char)
    (p : Option (List Char)) (suffix : List Char) :
    renderTag v major minor p suffix ≠ [] := by
  simp [renderTag]

/-- The classifier on a well-formed rendered tag: the verdict is exactly
`patch = 0` (with all components parsing to finite JavaScript numbers). -/
theorem isMajorOrMinorTag_renderTag (v : Bool) (major minor : List Char)
    (p : Option (List Char)) (suffix : List Char)
    (hM : major ≠ []) (hMd : major.all Char.isDigit = true)
    (hm : minor ≠ []) (hmd : minor.all Char.isDigit = true)
    (hp : ∀ ps, p = some ps → ps ≠ [] ∧ ps.all Char.isDigit = true)
    (hs : matchSuffixEnd suffix = true)
    (hfM : jsFiniteNat (natOfDigits major) = true)
    (hfm : jsFiniteNat (natOfDigits minor) = true)
    (hfp : ∀ ps, p = some ps → jsFiniteNat (natOfDigits ps) = true) :
    isMajorOrMinorTag (renderTag v major minor p suffix) = (patchNat p == 0) := by
  have hne := renderTag_ne_nil v major minor p suffix
  have hsg := semverGroups_renderTag v major minor p suffix hM hMd hm hmd hp hs
  have hfpatch : jsFiniteNat (patchNat p) = true := by
    cases p with
    | none => decide
    | some ps => exact hfp ps rfl
  simp only [isMajorOrMinorTag, List.isEmpty_eq_true, hne, if_false, hsg]
  cases p with
  | none =>
    have h0 : jsFiniteNat 0 = true := by decide
    simp [patchNat, hfM, hfm, h0]
  | some ps => simp [patchNat, hfM, hfm, hfp ps rfl]

/-- The classifier accepts only tags that decompose completely into the
regex groups with patch `0`. -/
theorem isMajorOrMinorTag_eq_true {cs : List Char}
    (h : isMajorOrMinorTag cs = true) :
    ∃ v major minor p suffix, cs = renderTag v major minor p suffix ∧
      major ≠ [] ∧ major.all Char.isDigit = true ∧
      minor ≠ [] ∧ minor.all Char.isDigit = true ∧
      (∀ ps, p = some ps → ps ≠ [] ∧ ps.all Char.isDigit = true) ∧
      matchSuffixEnd suffix = true ∧ patchNat p = 0 := by
  cases hsg : semverGroups cs with
  | none => simp [isMajorOrMinorTag, hsg] at h
  | some groups =>
    obtain ⟨major1, minor1, p1⟩ := groups
    obtain ⟨v, suffix, hcs, hM, hMd, hm, hmd, hp, hs⟩ := semverGroups_eq_some hsg
    refine ⟨v, major1, minor1, p1, suffix, hcs, hM, hMd, hm, hmd, hp, hs, ?_⟩
    cases p1 with
    | none => rfl
    | some ps =>
      simp only [isMajorOrMinorTag, hsg] at h
      split at h
      · exact absurd h (by simp)
      · split at h
        · simpa [patchNat] using h
        · exact absurd h (by simp)

/-! ### CDATA round-trip lemmas (for C4) -/

theorem isPrefixOf_append_self (a b : List Char) : a.isPrefixOf (a ++ b) = true := by
  rw [ List.isPrefixOf_iff_prefix]
  exact List.prefix_append a b

theorem findSplit_eq_some {pat cs pre post : List Char}
    (h : findSplit pat cs = some (pre, post)) :
    cs = pre ++ pat ++ post ∧ findSplit pat pre = none := by
  induction cs generalizing pre post with
  | nil => exact absurd h (by simp [findSplit])
  | cons c rest ih =>
    rw [findSplit] at h
    split at h
    · rename_i hpre
      simp only [Option.some.injEq, Prod.mk.injEq] at h
      obtain ⟨h1, h2⟩ := h
      subst h1; subst h2
      obtain ⟨t, ht⟩ := List.isPrefixOf_iff_prefix.1 hpre
      constructor
      · conv_lhs => rw [← ht]
        rw [← ht, List.drop_left]
        simp
      · rfl
    · rename_i hpre
      cases hfs : findSplit pat rest with
      | none => rw [hfs] at h; exact absurd h (by simp)
      | some pp =>
        obtain ⟨pre1, post1⟩ := pp
        rw [hfs] at h
        simp only [Option.some.injEq, Prod.mk.injEq] at h
        obtain ⟨h1, h2⟩ := h
        subst h1; subst h2
        obtain ⟨hdec, hnone⟩ := ih hfs
        constructor
        · simp [hdec]
        · rw [findSplit]
          have hfalse : pat.isPrefixOf (c :: pre1) = false := by
            by_contra hc
            rw [Bool.not_eq_false, List.isPrefixOf_iff_prefix] at hc
            have hext : (c :: pre1) <+: (c :: rest) := by
              exact ⟨pat ++ post1, by simp [hdec]⟩
            have : pat.isPrefixOf (c :: rest) = true := by
              rw [ List.isPrefixOf_iff_prefix]
              exact hc.trans hext
            simp [this] at hpre
          rw [hfalse]
          simp [hnone]

theorem cdClose_not_prefix_first_ne {c : Char} (hc : ¬c = ']') (r : List Char) :
    cdClose.isPrefixOf (c :: r) = false := by
  have hb : ((']' : Char) == c) = false := by
    rw [beq_eq_false_iff_ne]
    exact fun h => hc h.symm
  simp [cdClose, List.isPrefixOf, hb]

theorem cdClose_not_prefix_third_ne {c d e : Char} (he : ¬e = '>') (r : List Char) :
    cdClose.isPrefixOf (c :: d :: e :: r) = false := by
  have hb : (('>' : Char) == e) = false := by
    rw [beq_eq_false_iff_ne]
    exact fun h => he h.symm
  simp [cdClose, List.isPrefixOf, hb]

theorem cdClose_prefix_head (c d e : Char) (r1 r2 : List Char) :
    cdClose.isPrefixOf (c :: d :: e :: r1) = cdClose.isPrefixOf (c :: d :: e :: r2) := by
  simp [cdClose, List.isPrefixOf]

/-- Appending a block that contributes no `>` in its first two characters
cannot create a `]]>` occurrence at the head of a clean list. -/
theorem cdClose_not_prefix_extend {c : Char} {w x : List Char}
    (hpre : cdClose.isPrefixOf (c :: w) = false)
    (hx : x = [']', ']'] ∨ ∃ z, x = cdClose ++ z) :
    cdClose.isPrefixOf (c :: (w ++ x)) = false := by
  cases w with
  | nil =>
    rcases hx with rfl | ⟨z, rfl⟩
    · exact cdClose_not_prefix_third_ne (by decide) []
    · exact cdClose_not_prefix_third_ne (by decide) ('>' :: z)
  | cons d w1 =>
    cases w1 with
    | nil =>
      rcases hx with rfl | ⟨z, rfl⟩
      · exact cdClose_not_prefix_third_ne (by decide) [']']
      · exact cdClose_not_prefix_third_ne (by decide) (']' :: '>' :: z)
    | cons e w2 =>
      rw [show (d :: e :: w2) ++ x = d :: e :: (w2 ++ x) from by simp]
      rw [cdClose_prefix_head c d e (w2 ++ x) w2]
      exact hpre

theorem noCD_append_brackets {w : List Char} (h : findSplit cdClose w = none) :
    findSplit cdClose (w ++ [']', ']']) = none := by
  induction w with
  | nil => decide
  | cons c w1 ih =>
    rw [findSplit] at h
    split at h
    · exact absurd h (by simp)
    · rename_i hpre
      have hpre1 : cdClose.isPrefixOf (c :: w1) = false := by
        simp only [Bool.not_eq_true] at hpre
        exact hpre
      cases hfs : findSplit cdClose w1 with
      | some pp => rw [hfs] at h; exact absurd h (by simp)
      | none =>
        rw [show (c :: w1) ++ [']', ']'] = c :: (w1 ++ [']', ']']) from by simp]
        rw [findSplit]
        rw [cdClose_not_prefix_extend hpre1 (Or.inl rfl)]
        simp [ih hfs]

theorem noCD_gt_cons {w : List Char} (h : findSplit cdClose w = none) :
    findSplit cdClose ('>' :: w) = none := by
  rw [findSplit]
  rw [cdClose_not_prefix_first_ne (by decide) w]
  simp [h]

theorem findSplit_append_cdClose {w : List Char} (h : findSplit cdClose w = none)
    (z : List Char) :
    findSplit cdClose (w ++ (cdClose ++ z)) = some (w, z) := by
  induction w with
  | nil =>
    show findSplit cdClose (']' :: ']' :: '>' :: z) = some ([], z)
    rw [findSplit]
    have hp : cdClose.isPrefixOf (']' :: ']' :: '>' :: z) = true := by
      simp [cdClose, List.isPrefixOf]
    rw [hp]
    simp [cdClose]
  | cons c w1 ih =>
    rw [findSplit] at h
    split at h
    · exact absurd h (by simp)
    · rename_i hpre
      have hpre1 : cdClose.isPrefixOf (c :: w1) = false := by
        simp only [Bool.not_eq_true] at hpre
        exact hpre
      cases hfs : findSplit cdClose w1 with
      | some pp => rw [hfs] at h; exact absurd h (by simp)
      | none =>
        rw [show (c :: w1) ++ (cdClose ++ z) = c :: (w1 ++ (cdClose ++ z)) from by simp]
        rw [findSplit]
        rw [cdClose_not_prefix_extend hpre1 (Or.inr ⟨z, rfl⟩)]
        simp [ih hfs]

theorem replaceAllF_fuel {pat repl : List Char} (hpat : pat ≠ []) :
    ∀ f f' cs, cs.length ≤ f → cs.length ≤ f' →
      replaceAllF pat repl f cs = replaceAllF pat repl f' cs := by
  intro f
  induction f with
  | zero =>
    intro f' cs hf _
    have : cs = [] := List.length_eq_zero.1 (Nat.le_zero.1 hf)
    subst this
    cases f' <;> simp [replaceAllF, findSplit]
  | succ f ih =>
    intro f' cs hf hf'
    cases f' with
    | zero =>
      have : cs = [] := List.length_eq_zero.1 (Nat.le_zero.1 hf')
      subst this
      simp [replaceAllF, findSplit]
    | succ f1 =>
      cases hfs : findSplit pat cs with
      | none => simp [replaceAllF, hfs]
      | some pp =>
        obtain ⟨pre, post⟩ := pp
        obtain ⟨hdec, _⟩ := findSplit_eq_some hfs
        have hpl : 0 < pat.length := List.length_pos.2 hpat
        have hlen : post.length ≤ f ∧ post.length ≤ f1 := by
          subst hdec
          simp only [List.length_append] at hf hf'
          omega
        simp only [replaceAllF, hfs]
        rw [ih f1 post hlen.1 hlen.2]

theorem replaceAll_of_none {pat repl cs : List Char} (h : findSplit pat cs = none) :
    replaceAll pat repl cs = cs := by
  cases cs with
  | nil => rfl
  | cons c rest => simp [replaceAll, replaceAllF, h]

theorem replaceAll_of_some {pat repl cs pre post : List Char} (hpat : pat ≠ [])
    (h : findSplit pat cs = some (pre, post)) :
    replaceAll pat repl cs = pre ++ repl ++ replaceAll pat repl post := by
  obtain ⟨hdec, _⟩ := findSplit_eq_some h
  cases cs with
  | nil => exact absurd h (by simp [findSplit])
  | cons c rest =>
    have hle : post.length ≤ rest.length := by
      have hpl : 0 < pat.length := List.length_pos.2 hpat
      have := congrArg List.length hdec
      simp only [List.length_cons, List.length_append] at this
      omega
    simp only [replaceAll, List.length_cons, replaceAllF, h]
    rw [replaceAllF_fuel hpat rest.length post.length post hle (le_refl _)]

/-- Round trip: the parser reading the CDATA sequence that `wrapInCdata`
emits for `g ++ v` (with `g` a clean prefix carried through the recursion)
recovers exactly `g ++ v` and consumes the sequence completely. -/
theorem parseCdataF_cons (fuel : Nat) (c : Char) (rest : List Char) :
    parseCdataF (fuel + 1) (c :: rest)
      = (if cdOpen.isPrefixOf (c :: rest) then
          match findSplit cdClose ((c :: rest).drop cdOpen.length) with
          | some (txt, post) => (parseCdataF fuel post).map (fun r => txt ++ r)
          | none => none
        else none) := rfl

theorem parseCdataF_roundtrip :
    ∀ (n : Nat) (v g : List Char) (fuel : Nat),
      v.length ≤ n →
      (∀ w, findSplit cdClose w = none → findSplit cdClose (g ++ w) = none) →
      (cdOpen ++ g ++ replaceAll cdClose cdReplacement v ++ cdClose).length ≤ fuel →
      parseCdataF fuel (cdOpen ++ g ++ replaceAll cdClose cdReplacement v ++ cdClose)
        = some (g ++ v) := by
  intro n
  induction n using Nat.strong_induction_on with
  | _ n ih =>
    intro v g fuel hn Hg hfuel
    obtain ⟨fl, rfl⟩ : ∃ fl, fuel = fl + 1 := by
      cases fuel with
      | zero =>
        exfalso
        simp [List.length_append, cdOpen, cdClose] at hfuel
      | succ fl => exact ⟨fl, rfl⟩
    have hL : cdOpen ++ g ++ replaceAll cdClose cdReplacement v ++ cdClose
        = '<' :: (['!', '[', 'C', 'D', 'A', 'T', 'A', '['] ++
            (g ++ (replaceAll cdClose cdReplacement v ++ cdClose))) := by
      simp [cdOpen]
    rw [hL]
    rw [parseCdataF_cons]
    have hpre : cdOpen.isPrefixOf
        ('<' :: (['!', '[', 'C', 'D', 'A', 'T', 'A', '['] ++
          (g ++ (replaceAll cdClose cdReplacement v ++ cdClose)))) = true := by
      have := isPrefixOf_append_self cdOpen
        (g ++ (replaceAll cdClose cdReplacement v ++ cdClose))
      simpa [cdOpen] using this
    rw [hpre]
    simp only [if_true]
    have hdrop : ('<' :: (['!', '[', 'C', 'D', 'A', 'T', 'A', '['] ++
        (g ++ (replaceAll cdClose cdReplacement v ++ cdClose)))).drop cdOpen.length
        = g ++ (replaceAll cdClose cdReplacement v ++ cdClose) := by
      have := List.drop_left cdOpen (g ++ (replaceAll cdClose cdReplacement v ++ cdClose))
      simpa [cdOpen] using this
    rw [hdrop]
    cases hfs : findSplit cdClose v with
    | none =>
      rw [replaceAll_of_none hfs]
      have hsplit := findSplit_append_cdClose (Hg v hfs) []
      rw [show g ++ (v ++ cdClose) = (g ++ v) ++ (cdClose ++ []) from by simp]
      rw [hsplit]
      simp [parseCdataF]
    | some pp =>
      obtain ⟨pre, post⟩ := pp
      obtain ⟨hdec, hnonepre⟩ := findSplit_eq_some hfs
      have hsv : replaceAll cdClose cdReplacement v
          = pre ++ cdReplacement ++ replaceAll cdClose cdReplacement post :=
        replaceAll_of_some (by decide) hfs
      have hclean : findSplit cdClose (g ++ (pre ++ [']', ']'])) = none :=
        Hg _ (noCD_append_brackets hnonepre)
      have hsplit := findSplit_append_cdClose hclean
        (cdOpen ++ '>' :: (replaceAll cdClose cdReplacement post ++ cdClose))
      have hshape : g ++ (replaceAll cdClose cdReplacement v ++ cdClose)
          = (g ++ (pre ++ [']', ']'])) ++
            (cdClose ++ (cdOpen ++ '>' ::
              (replaceAll cdClose cdReplacement post ++ cdClose))) := by
        rw [hsv]
        simp [cdReplacement, cdClose, cdOpen]
      rw [hshape, hsplit]
      have hpostlen : post.length < n := by
        have := congrArg List.length hdec
        simp only [List.length_append, cdClose, List.length_cons, List.length_nil] at this
        omega
      have hrec := ih post.length hpostlen post ['>'] fl (le_refl _)
        (fun w hw => noCD_gt_cons hw)
        (by
          have h1 := hfuel
          rw [hsv] at h1
          simp only [List.length_append, List.length_cons, cdOpen, cdClose,
            cdReplacement, List.length_nil] at h1 ⊢
          omega)
      have hrec1 : parseCdataF fl
          (cdOpen ++ '>' :: (replaceAll cdClose cdReplacement post ++ cdClose))
          = some ('>' :: post) := by
        have heq : cdOpen ++ ['>'] ++ replaceAll cdClose cdReplacement post ++ cdClose
            = cdOpen ++ '>' :: (replaceAll cdClose cdReplacement post ++ cdClose) := by
          simp
        rw [← heq]
        simpa using hrec
      dsimp only
      rw [hrec1, hdec]
      simp [cdClose]

/-- The element content emitted by `wrapInCdata`. -/
theorem parseCdataSections_roundtrip (v : List Char) :
    parseCdataSections (cdOpen ++ replaceAll cdClose cdReplacement v ++ cdClose)
      = some v := by
  have h := parseCdataF_roundtrip v.length v [] 
      (cdOpen ++ [] ++ replaceAll cdClose cdReplacement v ++ cdClose).length
      (le_refl _) (fun w hw => by simpa using hw) (le_refl _)
  simpa [parseCdataSections] using h

/-! ### Per-claim theorems: the classifier -/

theorem isMajorOrMinorRelease_mk (cs : List Char) :
    isMajorOrMinorRelease (some (String.mk cs)) = isMajorOrMinorTag cs := rfl

theorem isMajorOrMinorRelease_tag_present {o : Option String}
    (h : isMajorOrMinorRelease o = true) : ∃ t, o = some t ∧ t ≠ "" := by
  cases o with
  | none => exact absurd h (by decide)
  | some t =>
    refine ⟨t, rfl, ?_⟩
    intro he
    subst he
    exact absurd h (by decide)

/-- C1 (code_bug evidence): the failing input evaluated on the code.  The
config entry `{slug: "facebook/react", maxReleases: 5, includePatchReleases:
true}` normalizes to a record that has dropped the `includePatchReleases`
flag entirely, and the classifier — the only filter consulted afterwards —
rejects the patch release `v1.2.3` unconditionally, although the README and
the spec promise it is kept when `includePatchReleases` is true. -/
theorem c1_includePatchReleases_ignored :
    parseConfigEntry (ConfigEntry.obj
        { slug := some "facebook/react", maxReleases := some 5,
          includePatchReleases := some true })
      = Except.ok { slug := "facebook/react", maxReleases := 5 } ∧
    isMajorOrMinorRelease (some "v1.2.3") = false ∧
    isMajorOrMinorRelease (some "1.2.3") = false :=
  ⟨rfl, by decide, by decide⟩

/-- C2: for a tag whose numeric portion matches the semver pattern and that
carries a well-formed `-`/`+` suffix, the suffix never decides by itself:
the verdict is exactly `patch = 0` on the numeric portion (first part,
stated for every decomposed tag including suffixed ones); and the match is
anchored: any accepted tag decomposes completely into the groups, so a tag
with trailing garbage that does not extend the groups is excluded (second
part). -/
theorem c2_suffix_neutral_and_anchored :
    (∀ (v : Bool) (major minor : List Char) (p : Option (List Char)) (suffix : List Char),
      major ≠ [] → major.all Char.isDigit = true →
      minor ≠ [] → minor.all Char.isDigit = true →
      (∀ ps, p = some ps → ps ≠ [] ∧ ps.all Char.isDigit = true) →
      matchSuffixEnd suffix = true →
      jsFiniteNat (natOfDigits major) = true →
      jsFiniteNat (natOfDigits minor) = true →
      (∀ ps, p = some ps → jsFiniteNat (natOfDigits ps) = true) →
      isMajorOrMinorRelease (some (String.mk (renderTag v major minor p suffix)))
        = (patchNat p == 0)) ∧
    (∀ t : String, isMajorOrMinorRelease (some t) = true →
      ∃ v major minor p suffix, t.data = renderTag v major minor p suffix ∧
        matchSuffixEnd suffix = true ∧ patchNat p = 0) := by
  constructor
  · intro v major minor p suffix hM hMd hm hmd hp hs hfM hfm hfp
    rw [isMajorOrMinorRelease_mk]
    exact isMajorOrMinorTag_renderTag v major minor p suffix hM hMd hm hmd hp hs hfM hfm hfp
  · intro t ht
    obtain ⟨v, major, minor, p, suffix, hcs, _, _, _, _, _, hs, hp0⟩ :=
      isMajorOrMinorTag_eq_true ht
    exact ⟨v, major, minor, p, suffix, hcs, hs, hp0⟩

/-- Witness for C2: both parts applied at `v1.2.0-rc.1` (suffixed, patch 0,
included) resp. its decomposition. -/
theorem c2_suffix_neutral_and_anchored_witness :
    isMajorOrMinorRelease (some (String.mk
        (renderTag true ['1'] ['2'] (some ['0']) ['-', 'r', 'c', '.', '1'])))
      = (patchNat (some ['0']) == 0) ∧
    (∃ v major minor p suffix,
      ("v1.2.0-rc.1" : String).data = renderTag v major minor p suffix ∧
        matchSuffixEnd suffix = true ∧ patchNat p = 0) :=
  ⟨c2_suffix_neutral_and_anchored.1 true ['1'] ['2'] (some ['0']) ['-', 'r', 'c', '.', '1']
      (by decide) (by decide) (by decide) (by decide)
      (fun ps hps => by injection hps with h; subst h; exact ⟨by decide, by decide⟩)
      (by decide) (by decide) (by decide)
      (fun ps hps => by injection hps with h; subst h; decide),
    c2_suffix_neutral_and_anchored.2 "v1.2.0-rc.1" (by decide)⟩

/-- C3 (counterexample): the spec sentence says a pre-release/build suffix
disqualifies regardless of patch value, but the code classifies
`v1.2.0-rc.1` (suffix present, patch 0) as included. -/
theorem c3_suffix_does_not_disqualify_counterexample :
    isMajorOrMinorRelease (some "v1.2.0-rc.1") = true := by decide

/-- C3 (amended): a pre-release/build suffix does not disqualify a release;
a suffixed tag is classified exactly by the patch rule on its numeric
portion (`v1.2.0-rc.1` is included, `v1.2.3-rc.1` is excluded). -/
theorem c3_suffix_classified_by_patch_rule :
    ∀ (v : Bool) (major minor : List Char) (p : Option (List Char))
      (c : Char) (rest : List Char),
      major ≠ [] → major.all Char.isDigit = true →
      minor ≠ [] → minor.all Char.isDigit = true →
      (∀ ps, p = some ps → ps ≠ [] ∧ ps.all Char.isDigit = true) →
      matchSuffixEnd (c :: rest) = true →
      jsFiniteNat (natOfDigits major) = true →
      jsFiniteNat (natOfDigits minor) = true →
      (∀ ps, p = some ps → jsFiniteNat (natOfDigits ps) = true) →
      isMajorOrMinorRelease (some (String.mk (renderTag v major minor p (c :: rest))))
        = (patchNat p == 0) := by
  intro v major minor p c rest hM hMd hm hmd hp hs hfM hfm hfp
  rw [isMajorOrMinorRelease_mk]
  exact isMajorOrMinorTag_renderTag v major minor p (c :: rest) hM hMd hm hmd hp hs hfM hfm hfp

/-- Witness for the amended C3: the suffixed patch release `v1.2.3-rc.1`
gets verdict `3 == 0`, i.e. excluded by the patch rule, not by the suffix. -/
theorem c3_suffix_classified_by_patch_rule_witness :
    isMajorOrMinorRelease (some (String.mk
        (renderTag true ['1'] ['2'] (some ['3']) ['-', 'r', 'c', '.', '1'])))
      = (patchNat (some ['3']) == 0) :=
  c3_suffix_classified_by_patch_rule true ['1'] ['2'] (some ['3']) '-' ['r', 'c', '.', '1']
    (by decide) (by decide) (by decide) (by decide)
    (fun ps hps => by injection hps with h; subst h; exact ⟨by decide, by decide⟩)
    (by decide) (by decide) (by decide)
    (fun ps hps => by injection hps with h; subst h; decide)

/-- C9: a tag of shape `MAJOR.MINOR` (optionally `v`-prefixed) with no patch
component parses with patch defaulting to `0` and is classified as included. -/
theorem c9_missing_patch_defaults_to_zero :
    ∀ (v : Bool) (major minor : List Char),
      major ≠ [] → major.all Char.isDigit = true →
      minor ≠ [] → minor.all Char.isDigit = true →
      jsFiniteNat (natOfDigits major) = true →
      jsFiniteNat (natOfDigits minor) = true →
      isMajorOrMinorRelease (some (String.mk (renderTag v major minor none []))) = true := by
  intro v major minor hM hMd hm hmd hfM hfm
  rw [isMajorOrMinorRelease_mk]
  rw [isMajorOrMinorTag_renderTag v major minor none [] hM hMd hm hmd
    (fun ps hps => by exact absurd hps (by simp)) rfl hfM hfm
    (fun ps hps => by exact absurd hps (by simp))]
  rfl

/-- Witness for C9 at the boundary tag `1.2` from the spec. -/
theorem c9_missing_patch_defaults_to_zero_witness :
    String.mk (renderTag false ['1'] ['2'] none []) = "1.2" ∧
    isMajorOrMinorRelease (some (String.mk (renderTag false ['1'] ['2'] none []))) = true :=
  ⟨by decide,
    c9_missing_patch_defaults_to_zero false ['1'] ['2']
      (by decide) (by decide) (by decide) (by decide) (by decide) (by decide)⟩

/-- C10: every item the normalizer produces comes from a release whose tag
is present and non-empty (the classifier filter guarantees it), so the
`'unknown'` fallback is never taken: the item's `tagName` is the release's
actual tag. -/
theorem c10_tagName_fallback_never_taken :
    ∀ (env : JsEnv) (slug : String) (maxReleases : Nat)
      (releases : List GitHubRelease) (item : FeedItem),
      item ∈ processReleases env slug maxReleases releases →
      ∃ r ∈ releases, r.tag_name = some item.tagName ∧ item.tagName ≠ "" := by
  intro env slug maxReleases releases item hmem
  simp only [processReleases, List.mem_map] at hmem
  obtain ⟨r, hrtake, hitem⟩ := hmem
  have hrq := List.mem_of_mem_take hrtake
  have hq : isMajorOrMinorRelease r.tag_name = true := (List.mem_filter.1 hrq).2
  have hrd := (List.mem_filter.1 hrq).1
  have hrrel : r ∈ releases := (List.mem_filter.1 hrd).1
  obtain ⟨t, htag, hne⟩ := isMajorOrMinorRelease_tag_present hq
  refine ⟨r, hrrel, ?_, ?_⟩
  · rw [htag, ← hitem]
    simp [normalizeRelease, htag]
  · rw [← hitem]
    simpa [normalizeRelease, htag] using hne

/-! ### Per-claim theorems: feed assembly -/

/-- C4: for every release body string — including ones containing `]]>` —
the CDATA-wrapped content element splits into the tag brackets around a
well-formed sequence of CDATA sections: an XML parser reading that sequence
consumes it completely (every section the serializer opens is closed only by
the serializer's own `]]>` delimiter) and recovers exactly the original
body, so the document stays well-formed. -/
theorem c4_cdata_no_premature_terminator (tagName value : String) :
    wrapInCdata tagName value
      = "<" ++ tagName ++ ">"
        ++ String.mk (cdOpen ++ replaceAll cdClose cdReplacement value.data ++ cdClose)
        ++ "</" ++ tagName ++ ">" ∧
    parseCdataSections (cdOpen ++ replaceAll cdClose cdReplacement value.data ++ cdClose)
      = some value.data := by
  constructor
  · apply String.ext
    have hmk : ∀ l : List Char, (String.mk l).data = l := fun l => rfl
    have e1 : ("><![CDATA[" : String).data = (">" : String).data ++ cdOpen := by decide
    have e2 : ("]]></" : String).data = cdClose ++ ("</" : String).data := by decide
    simp only [wrapInCdata, String.data_append, hmk, e1, e2, cdOpen, cdClose,
      List.append_assoc, List.cons_append, List.nil_append]
  · exact parseCdataSections_roundtrip value.data

/-- C5: the per-repository cap — `processReleases` is the `maxReleases`-
truncation (in API response order) of the qualifying releases, normalized,
hence never longer than `maxReleases`; and in the concrete two-repository
scenario with `maxReleases = 2` and five qualifying releases each, the
merged list has exactly four items, at most two per repository. -/
theorem c5_per_repository_cap :
    (∀ (env : JsEnv) (slug : String) (maxReleases : Nat) (releases : List GitHubRelease),
      processReleases env slug maxReleases releases
        = ((qualifyingReleases releases).take maxReleases).map (normalizeRelease env slug) ∧
      (processReleases env slug maxReleases releases).length ≤ maxReleases) ∧
    (∀ (env : JsEnv) (s1 s2 : String) (rs1 rs2 : List GitHubRelease),
      s1 ≠ s2 →
      (qualifyingReleases rs1).length = 5 →
      (qualifyingReleases rs2).length = 5 →
      (processReleases env s1 2 rs1 ++ processReleases env s2 2 rs2).length = 4 ∧
      ((processReleases env s1 2 rs1 ++ processReleases env s2 2 rs2).filter
          (fun i => i.repoSlug == s1)).length ≤ 2 ∧
      ((processReleases env s1 2 rs1 ++ processReleases env s2 2 rs2).filter
          (fun i => i.repoSlug == s2)).length ≤ 2) := by
  have hslug : ∀ (env : JsEnv) (s : String) (n : Nat) (rs : List GitHubRelease)
      (i : FeedItem), i ∈ processReleases env s n rs → i.repoSlug = s := by
    intro env s n rs i hi
    simp only [processReleases, List.mem_map] at hi
    obtain ⟨r, _, hi⟩ := hi
    rw [← hi]
    rfl
  have hlen : ∀ (env : JsEnv) (s : String) (n : Nat) (rs : List GitHubRelease),
      (processReleases env s n rs).length = min n (qualifyingReleases rs).length := by
    intro env s n rs
    simp [processReleases, qualifyingReleases, List.length_take]
  constructor
  · intro env slug maxReleases releases
    refine ⟨rfl, ?_⟩
    rw [hlen]
    exact Nat.min_le_left _ _
  · intro env s1 s2 rs1 rs2 hne h1 h2
    have hl1 : (processReleases env s1 2 rs1).length = 2 := by rw [hlen, h1]; decide
    have hl2 : (processReleases env s2 2 rs2).length = 2 := by rw [hlen, h2]; decide
    refine ⟨by simp [List.length_append, hl1, hl2], ?_, ?_⟩
    · rw [List.filter_append]
      have hnil : (processReleases env s2 2 rs2).filter (fun i => i.repoSlug == s1) = [] := by
        rw [List.filter_eq_nil]
        intro i hi
        simp [hslug env s2 2 rs2 i hi, Ne.symm hne]
      rw [hnil]
      simp only [List.append_nil]
      calc ((processReleases env s1 2 rs1).filter (fun i => i.repoSlug == s1)).length
          ≤ (processReleases env s1 2 rs1).length := List.length_filter_le _ _
        _ = 2 := hl1
    · rw [List.filter_append]
      have hnil : (processReleases env s1 2 rs1).filter (fun i => i.repoSlug == s2) = [] := by
        rw [List.filter_eq_nil]
        intro i hi
        simp [hslug env s1 2 rs1 i hi, hne]
      rw [hnil]
      simp only [List.nil_append]
      calc ((processReleases env s2 2 rs2).filter (fun i => i.repoSlug == s2)).length
          ≤ (processReleases env s2 2 rs2).length := List.length_filter_le _ _
        _ = 2 := hl2

/-- Witness for C5: two repositories, five concrete qualifying releases
each, capped at two apiece: four items, at most two per repository. -/
theorem c5_per_repository_cap_witness :
    (processReleases envZ "a/b" 2 rsZ5 ++ processReleases envZ "c/d" 2 rsZ5).length = 4 ∧
    ((processReleases envZ "a/b" 2 rsZ5 ++ processReleases envZ "c/d" 2 rsZ5).filter
        (fun i => i.repoSlug == "a/b")).length ≤ 2 ∧
    ((processReleases envZ "a/b" 2 rsZ5 ++ processReleases envZ "c/d" 2 rsZ5).filter
        (fun i => i.repoSlug == "c/d")).length ≤ 2 :=
  c5_per_repository_cap.2 envZ "a/b" "c/d" rsZ5 rsZ5 (by decide) (by decide) (by decide)

/-- C8: with three configured repositories where the middle fetch fails
(non-success HTTP status or a non-list body), the run still returns
normally: the feed is built from exactly the items of the two successful
repositories, the single collected warning names the failed repository, and
the exit code is `0`.  The failure is caught at the iteration boundary and
never aborts the remaining targets. -/
theorem c8_per_target_failure_isolated :
    ∀ (env : JsEnv) (now : Int) (s1 s2 s3 : String)
      (rs1 rs3 : List GitHubRelease) (oc2 : FetchOutcome),
      validSlug s1 = true → validSlug s3 = true →
      ((∃ st stt, oc2 = FetchOutcome.httpError st stt) ∨ oc2 = FetchOutcome.notAList) →
      ∃ msg : String,
        mainRun env
            [(ConfigEntry.str s1, FetchOutcome.ok rs1), (ConfigEntry.str s2, oc2),
             (ConfigEntry.str s3, FetchOutcome.ok rs3)] now
          = Except.ok (buildRssFeed env
              (processReleases env s1 DEFAULT_MAX_RELEASES_PER_REPO rs1 ++
                processReleases env s3 DEFAULT_MAX_RELEASES_PER_REPO rs3) now,
              ["- " ++ s2 ++ ": " ++ msg]) ∧
        mainExitCode (mainRun env
            [(ConfigEntry.str s1, FetchOutcome.ok rs1), (ConfigEntry.str s2, oc2),
             (ConfigEntry.str s3, FetchOutcome.ok rs3)] now) = 0 := by
  intro env now s1 s2 s3 rs1 rs3 oc2 h1 h3 hoc
  have hv1 : (jsFalsyStr (slugParts s1).1 || jsFalsyStr (slugParts s1).2) = false := by
    simp only [validSlug, Bool.and_eq_true, Bool.not_eq_true'] at h1
    simp [h1.1, h1.2]
  have hv3 : (jsFalsyStr (slugParts s3).1 || jsFalsyStr (slugParts s3).2) = false := by
    simp only [validSlug, Bool.and_eq_true, Bool.not_eq_true'] at h3
    simp [h3.1, h3.2]
  have hf1 : fetchReleasesForRepo env ⟨s1, DEFAULT_MAX_RELEASES_PER_REPO⟩ (.ok rs1)
      = .ok (processReleases env s1 DEFAULT_MAX_RELEASES_PER_REPO rs1) := by
    simp [fetchReleasesForRepo, hv1]
  have hf3 : fetchReleasesForRepo env ⟨s3, DEFAULT_MAX_RELEASES_PER_REPO⟩ (.ok rs3)
      = .ok (processReleases env s3 DEFAULT_MAX_RELEASES_PER_REPO rs3) := by
    simp [fetchReleasesForRepo, hv3]
  have hmid : ∃ msg, fetchReleasesForRepo env ⟨s2, DEFAULT_MAX_RELEASES_PER_REPO⟩ oc2
      = .error msg := by
    by_cases hs2 : (jsFalsyStr (slugParts s2).1 || jsFalsyStr (slugParts s2).2) = true
    · exact ⟨"Repository slug \"" ++ s2 ++ "\" must be in \"owner/name\" format.",
        by simp [fetchReleasesForRepo, hs2]⟩
    · rw [Bool.not_eq_true] at hs2
      rcases hoc with ⟨st, stt, rfl⟩ | rfl
      · exact ⟨"GitHub API request failed for " ++ s2 ++ ": " ++ toString st ++ " " ++ stt,
          by simp [fetchReleasesForRepo, hs2]⟩
      · exact ⟨"Unexpected response format for " ++ s2,
          by simp [fetchReleasesForRepo, hs2]⟩
  obtain ⟨msg, hmid⟩ := hmid
  have hrun : mainRun env
      [(ConfigEntry.str s1, FetchOutcome.ok rs1), (ConfigEntry.str s2, oc2),
       (ConfigEntry.str s3, FetchOutcome.ok rs3)] now
      = Except.ok (buildRssFeed env
          (processReleases env s1 DEFAULT_MAX_RELEASES_PER_REPO rs1 ++
            processReleases env s3 DEFAULT_MAX_RELEASES_PER_REPO rs3) now,
          ["- " ++ s2 ++ ": " ++ msg]) := by
    simp [mainRun, parseEntries, parseConfigEntry, processTargets, hf1, hf3, hmid]
  exact ⟨msg, hrun, by rw [hrun]; rfl⟩

/-- Witness for C8: three concrete repositories whose middle fetch returns a
500 status. -/
theorem c8_per_target_failure_isolated_witness :
    ∃ msg : String,
      mainRun envZ
          [(ConfigEntry.str "a/b", FetchOutcome.ok rsZ5),
           (ConfigEntry.str "c/d", FetchOutcome.httpError 500 "Internal Server Error"),
           (ConfigEntry.str "e/f", FetchOutcome.ok rsZ5)] 0
        = Except.ok (buildRssFeed envZ
            (processReleases envZ "a/b" DEFAULT_MAX_RELEASES_PER_REPO rsZ5 ++
              processReleases envZ "e/f" DEFAULT_MAX_RELEASES_PER_REPO rsZ5) 0,
            ["- " ++ "c/d" ++ ": " ++ msg]) ∧
      mainExitCode (mainRun envZ
          [(ConfigEntry.str "a/b", FetchOutcome.ok rsZ5),
           (ConfigEntry.str "c/d", FetchOutcome.httpError 500 "Internal Server Error"),
           (ConfigEntry.str "e/f", FetchOutcome.ok rsZ5)] 0) = 0 :=
  c8_per_target_failure_isolated envZ 0 "a/b" "c/d" "e/f" rsZ5 rsZ5
    (FetchOutcome.httpError 500 "Internal Server Error")
    (by decide) (by decide) (Or.inl ⟨500, "Internal Server Error", rfl⟩)

/-! ### Sorting lemmas (for C6) and determinism (for C7) -/

theorem mem_sortInsert {cmp : FeedItem → FeedItem → Int} {x y : FeedItem}
    {l : List FeedItem} : y ∈ sortInsert cmp x l ↔ y = x ∨ y ∈ l := by
  induction l with
  | nil => simp [sortInsert]
  | cons z zs ih =>
    simp only [sortInsert]
    split
    · simp [List.mem_cons]
    · simp only [List.mem_cons, ih]
      tauto

theorem mem_jsSortItems {cmp : FeedItem → FeedItem → Int} {items : List FeedItem}
    {y : FeedItem} : y ∈ jsSortItems cmp items ↔ y ∈ items := by
  have haux : ∀ (l acc : List FeedItem),
      y ∈ l.foldl (fun acc x => sortInsert cmp x acc) acc ↔ y ∈ acc ∨ y ∈ l := by
    intro l
    induction l with
    | nil => intro acc; simp
    | cons z zs ih =>
      intro acc
      rw [List.foldl_cons, ih, mem_sortInsert]
      simp only [List.mem_cons]
      tauto
  have := haux items []
  simpa [jsSortItems] using this

theorem itemComparator_lt {env : JsEnv} {a b : FeedItem}
    (ha : (jsDateValue env a.publishedAt).isSome = true)
    (hb : (jsDateValue env b.publishedAt).isSome = true) :
    itemComparator env a b < 0 ↔ itemKey env b < itemKey env a := by
  obtain ⟨ka, hka⟩ := Option.isSome_iff_exists.1 ha
  obtain ⟨kb, hkb⟩ := Option.isSome_iff_exists.1 hb
  simp [itemComparator, itemKey, hka, hkb]

theorem sortInsert_sorted {env : JsEnv} {x : FeedItem} {l : List FeedItem}
    (hx : (jsDateValue env x.publishedAt).isSome = true)
    (hl : ∀ y ∈ l, (jsDateValue env y.publishedAt).isSome = true)
    (hs : l.Pairwise (fun a b => itemKey env b ≤ itemKey env a)) :
    (sortInsert (itemComparator env) x l).Pairwise
      (fun a b => itemKey env b ≤ itemKey env a) := by
  induction l with
  | nil => simp [sortInsert]
  | cons y ys ih =>
    have hy := hl y (List.mem_cons_self y ys)
    have hys : ∀ z ∈ ys, (jsDateValue env z.publishedAt).isSome = true :=
      fun z hz => hl z (List.mem_cons_of_mem y hz)
    rw [List.pairwise_cons] at hs
    simp only [sortInsert]
    split
    · rename_i hc
      rw [itemComparator_lt hx hy] at hc
      rw [List.pairwise_cons]
      constructor
      · intro z hz
        rcases List.mem_cons.1 hz with rfl | hz1
        · exact le_of_lt hc
        · exact le_trans (hs.1 z hz1) (le_of_lt hc)
      · rw [List.pairwise_cons]
        exact ⟨hs.1, hs.2⟩
    · rename_i hc
      have hxy : itemKey env x ≤ itemKey env y := by
        have hnot : ¬itemKey env y < itemKey env x :=
          fun hlt => hc ((itemComparator_lt hx hy).2 hlt)
        omega
      rw [List.pairwise_cons]
      constructor
      · intro z hz
        rcases mem_sortInsert.1 hz with rfl | hz1
        · exact hxy
        · exact hs.1 z hz1
      · exact ih hys hs.2

theorem jsSortItems_sorted {env : JsEnv} {items : List FeedItem}
    (h : ∀ y ∈ items, (jsDateValue env y.publishedAt).isSome = true) :
    (jsSortItems (itemComparator env) items).Pairwise
      (fun a b => itemKey env b ≤ itemKey env a) := by
  have haux : ∀ (l acc : List FeedItem),
      (∀ y ∈ l, (jsDateValue env y.publishedAt).isSome = true) →
      (∀ y ∈ acc, (jsDateValue env y.publishedAt).isSome = true) →
      acc.Pairwise (fun a b => itemKey env b ≤ itemKey env a) →
      (l.foldl (fun acc x => sortInsert (itemComparator env) x acc) acc).Pairwise
        (fun a b => itemKey env b ≤ itemKey env a) := by
    intro l
    induction l with
    | nil => intro acc _ _ hacc; simpa using hacc
    | cons z zs ih =>
      intro acc hl hacc hpair
      rw [List.foldl_cons]
      exact ih (sortInsert (itemComparator env) z acc)
        (fun y hy => hl y (List.mem_cons_of_mem z hy))
        (fun y hy => by
          rcases mem_sortInsert.1 hy with rfl | hy1
          · exact hl y (List.mem_cons_self y zs)
          · exact hacc y hy1)
        (sortInsert_sorted (hl z (List.mem_cons_self z zs)) hacc hpair)
  exact haux items [] h (by simp) (by simp)

theorem filter_sortInsert {env : JsEnv} {x : FeedItem} {l : List FeedItem}
    (k : Option Int)
    (hx : (jsDateValue env x.publishedAt).isSome = true)
    (hl : ∀ y ∈ l, (jsDateValue env y.publishedAt).isSome = true)
    (hs : l.Pairwise (fun a b => itemKey env b ≤ itemKey env a)) :
    (sortInsert (itemComparator env) x l).filter
        (fun i => decide (jsDateValue env i.publishedAt = k))
      = l.filter (fun i => decide (jsDateValue env i.publishedAt = k)) ++
        (if jsDateValue env x.publishedAt = k then [x] else []) := by
  induction l with
  | nil =>
    by_cases hpx : jsDateValue env x.publishedAt = k <;>
      simp [sortInsert, List.filter, hpx]
  | cons y ys ih =>
    have hy := hl y (List.mem_cons_self y ys)
    have hys : ∀ z ∈ ys, (jsDateValue env z.publishedAt).isSome = true :=
      fun z hz => hl z (List.mem_cons_of_mem y hz)
    rw [List.pairwise_cons] at hs
    simp only [sortInsert]
    split
    · rename_i hc
      rw [itemComparator_lt hx hy] at hc
      by_cases hpx : jsDateValue env x.publishedAt = k
      · have hnone : (y :: ys).filter
            (fun i => decide (jsDateValue env i.publishedAt = k)) = [] := by
          rw [List.filter_eq_nil_iff]
          intro z hz
          simp only [decide_eq_true_eq]
          intro hzk
          have hkz : itemKey env z = itemKey env x := by
            simp [itemKey, hzk, hpx]
          have hle : itemKey env z ≤ itemKey env y := by
            rcases List.mem_cons.1 hz with rfl | hz1
            · exact le_refl _
            · exact hs.1 z hz1
          omega
        rw [List.filter_cons]
        simp [hpx, hnone]
      · rw [List.filter_cons]
        simp [hpx]
    · rename_i hc
      rw [List.filter_cons, List.filter_cons]
      by_cases hpy : jsDateValue env y.publishedAt = k <;>
        simp [hpy, ih hys hs.2]
  
theorem filter_jsSortItems {env : JsEnv} {items : List FeedItem} (k : Option Int)
    (h : ∀ y ∈ items, (jsDateValue env y.publishedAt).isSome = true) :
    (jsSortItems (itemComparator env) items).filter
        (fun i => decide (jsDateValue env i.publishedAt = k))
      = items.filter (fun i => decide (jsDateValue env i.publishedAt = k)) := by
  have haux : ∀ (l acc : List FeedItem),
      (∀ y ∈ l, (jsDateValue env y.publishedAt).isSome = true) →
      (∀ y ∈ acc, (jsDateValue env y.publishedAt).isSome = true) →
      acc.Pairwise (fun a b => itemKey env b ≤ itemKey env a) →
      (l.foldl (fun acc x => sortInsert (itemComparator env) x acc) acc).filter
          (fun i => decide (jsDateValue env i.publishedAt = k))
        = acc.filter (fun i => decide (jsDateValue env i.publishedAt = k)) ++
          l.filter (fun i => decide (jsDateValue env i.publishedAt = k)) := by
    intro l
    induction l with
    | nil => intro acc _ _ _; simp
    | cons z zs ih =>
      intro acc hl hacc hpair
      rw [List.foldl_cons]
      rw [ih (sortInsert (itemComparator env) z acc)
        (fun y hy => hl y (List.mem_cons_of_mem z hy))
        (fun y hy => by
          rcases mem_sortInsert.1 hy with rfl | hy1
          · exact hl y (List.mem_cons_self y zs)
          · exact hacc y hy1)
        (sortInsert_sorted (hl z (List.mem_cons_self z zs)) hacc hpair)]
      rw [filter_sortInsert k (hl z (List.mem_cons_self z zs)) hacc hpair]
      rw [List.filter_cons]
      by_cases hpz : jsDateValue env z.publishedAt = k <;> simp [hpz]
  simpa [jsSortItems] using haux items [] h (by simp) (by simp)

/-- C6: under the comparator of `buildRssFeed`, with every present timestamp
parsing to a positive time value, the stable sort puts the items in
descending key order, items with no timestamp (key `0`, the epoch) come
after every timestamped item, and each class of equal keys keeps its
original relative order (stability; no secondary key exists). -/
theorem c6_sort_descending_none_last_stable :
    ∀ (env : JsEnv) (items : List FeedItem),
      (∀ i ∈ items, (jsDateValue env i.publishedAt).isSome = true ∧
        (i.publishedAt ≠ none → 0 < itemKey env i)) →
      (jsSortItems (itemComparator env) items).Pairwise
          (fun a b => itemKey env b ≤ itemKey env a) ∧
      (jsSortItems (itemComparator env) items).Pairwise
          (fun a b => a.publishedAt = none → b.publishedAt = none) ∧
      (∀ k : Option Int, (jsSortItems (itemComparator env) items).filter
            (fun i => decide (jsDateValue env i.publishedAt = k))
          = items.filter (fun i => decide (jsDateValue env i.publishedAt = k))) := by
  intro env items h
  have hsome : ∀ i ∈ items, (jsDateValue env i.publishedAt).isSome = true :=
    fun i hi => (h i hi).1
  refine ⟨jsSortItems_sorted hsome, ?_, fun k => filter_jsSortItems k hsome⟩
  have hp := jsSortItems_sorted hsome
  refine List.Pairwise.imp_of_mem ?_ hp
  intro a b ha hb hle hnone
  have hka : itemKey env a = 0 := by simp [itemKey, jsDateValue, hnone]
  by_contra hbne
  have hbpos : 0 < itemKey env b := (h b (mem_jsSortItems.1 hb)).2 hbne
  omega

/-- Witness for C6 on three concrete items (two timestamped, one without). -/
theorem c6_sort_descending_none_last_stable_witness :
    (jsSortItems (itemComparator envZ) [itemZ1, itemZ2, itemNoTs]).Pairwise
        (fun a b => itemKey envZ b ≤ itemKey envZ a) ∧
    (jsSortItems (itemComparator envZ) [itemZ1, itemZ2, itemNoTs]).Pairwise
        (fun a b => a.publishedAt = none → b.publishedAt = none) ∧
    (∀ k : Option Int, (jsSortItems (itemComparator envZ) [itemZ1, itemZ2, itemNoTs]).filter
          (fun i => decide (jsDateValue envZ i.publishedAt = k))
        = [itemZ1, itemZ2, itemNoTs].filter
            (fun i => decide (jsDateValue envZ i.publishedAt = k))) :=
  c6_sort_descending_none_last_stable envZ [itemZ1, itemZ2, itemNoTs] (by decide)

theorem renderFeedItem_time_independent {env : JsEnv} {i : FeedItem}
    (h1 : i.publishedAt ≠ none) (h2 : i.publishedAt ≠ some "") (now now2 : Int) :
    renderFeedItem env now i = renderFeedItem env now2 i := by
  obtain ⟨s, hs⟩ : ∃ s, i.publishedAt = some s := by
    cases hp : i.publishedAt with
    | none => exact absurd hp h1
    | some s => exact ⟨s, rfl⟩
  have hsf : jsFalsyStr s = false := by
    rw [jsFalsyStr]
    cases hd : s.data with
    | nil =>
      exfalso
      apply h2
      rw [hs]
      have : s = "" := String.ext (by simp [hd])
      rw [this]
    | cons _ _ => rfl
  simp [renderFeedItem, formatRssDate, hs, hsf]

/-- C7 (amended): when every item carries a (non-empty) publication
timestamp string, the whole serialized document is a fixed prefix, the
build-timestamp text, and a fixed suffix — nothing but the
`<lastBuildDate>` content depends on the time of the run. -/
theorem c7_deterministic_up_to_build_timestamp :
    ∀ (env : JsEnv) (items : List FeedItem),
      (∀ i ∈ items, i.publishedAt ≠ none ∧ i.publishedAt ≠ some "") →
      ∀ now : Int,
        (buildRssFeed env items now).data
          = feedChannelLead.data ++ (lastBuildStamp env now).data
            ++ (feedTail env items).data := by
  intro env items h now
  have hmap : (jsSortItems (itemComparator env) items).map (renderFeedItem env now)
      = (jsSortItems (itemComparator env) items).map (renderFeedItem env 0) := by
    apply List.map_congr_left
    intro i hi
    have hmem := mem_jsSortItems.1 hi
    exact renderFeedItem_time_independent (h i hmem).1 (h i hmem).2 now 0
  simp only [buildRssFeed, hmap, feedChannelLead, feedTail, lastBuildStamp,
    joinLines, joinAll, String.data_append, List.append_assoc]

/-- Witness for the amended C7 at a concrete timestamped item and time. -/
theorem c7_deterministic_up_to_build_timestamp_witness :
    (buildRssFeed envZ [itemZ1] 7).data
      = feedChannelLead.data ++ (lastBuildStamp envZ 7).data
        ++ (feedTail envZ [itemZ1]).data :=
  c7_deterministic_up_to_build_timestamp envZ [itemZ1] (by decide) 7

/-- C7 (counterexample): an item with no timestamp at all gets the run time
as its `pubDate`, so two runs over identical inputs differ although the
build-timestamp text itself is identical — the output is NOT byte-identical
except for the build-timestamp field. -/
theorem c7_untimestamped_pubDate_varies_counterexample :
    lastBuildStamp envZ 0 = lastBuildStamp envZ 1 ∧
    decide (buildRssFeed envZ [itemNoTs] 0 = buildRssFeed envZ [itemNoTs] 1) = false :=
  ⟨by decide, by decide⟩

/-- Witness for C10: the first processed release of the concrete batch has
its actual tag, not the fallback. -/
theorem c10_tagName_fallback_never_taken_witness :
    ∃ r ∈ rsZ5, r.tag_name = some (normalizeRelease envZ "o/r" (relZ "1.0" "ta")).tagName ∧
      (normalizeRelease envZ "o/r" (relZ "1.0" "ta")).tagName ≠ "" :=
  c10_tagName_fallback_never_taken envZ "o/r" 5 rsZ5
    (normalizeRelease envZ "o/r" (relZ "1.0" "ta")) (by decide)

/-- Boundary behaviour of the classifier on the spec's example tags,
checked by evaluation. -/
theorem classifier_boundary_checks :
    isMajorOrMinorRelease (some "v1.2.0") = true ∧
    isMajorOrMinorRelease (some "1.2") = true ∧
    isMajorOrMinorRelease (some "v1.2.3") = false ∧
    isMajorOrMinorRelease (some "1.2.0+build7") = true ∧
    isMajorOrMinorRelease (some "1.2.x") = false ∧
    isMajorOrMinorRelease (some "release-1") = false ∧
    isMajorOrMinorRelease (some "1.2.0x") = false ∧
    isMajorOrMinorRelease (some "1.2.3-beta") = false ∧
    isMajorOrMinorRelease (some "") = false ∧
    isMajorOrMinorRelease none = false ∧
    isMajorOrMinorRelease (some "v1.2.0.5") = false := by
  refine ⟨?_, ?_, ?_, ?_, ?_, ?_, ?_, ?_, ?_, ?_, ?_⟩ <;> decide

end RepoRss
